import Mathlib

/-!
Verification development for the `webclone.js` crawler.

This file gives a shallow embedding, in Lean, of the parts of
`src/webclone.js` that the checked properties are about: the URL
normalizer and scope classifier, the record store
(`predictRecord` / `finalizeRecord`), the priority queue
(`getInsertIndex` / `enqueue` / `pop`), the rate-limit cooldown update
(`activateRateLimitCoolDown`), the path relativizer
(`createRelativizer`), attribute escaping (`safeAttrUrl`), and the
video filename negotiation (`getVideoFilePath`).

JavaScript strings are modelled as Lean `String` (lists of Unicode
scalar values), numbers as `Int`/`Nat`, `Set`/`Map` as lists and
association lists preserving JS insertion-order semantics, `null`
string parameters as `""` (both are falsy), and a thrown exception as
an explicit error value.  The platform collaborators (the WHATWG `URL`
class, Node's `path` module, `encodeURI`, `decodeURIComponent`) are
modelled as executable Lean functions covering the fragment of their
specified behaviour that these inputs exercise; the md5 `hash` helper
(a `crypto` collaborator) is an abstract function supplied through the
configuration.
-/

namespace Webclone

/-- Word characters considered whitespace by the JS `\s` regex class and
`String.prototype.trim` (restricted to the code points this development
meets: ASCII whitespace plus NBSP and the BOM). -/
def jsIsWs (c : Char) : Bool :=
  c = ' ' || c = '\t' || c = '\n' || c = '\r' || c = '\x0b' || c = '\x0c' ||
  c.toNat = 0xa0 || c.toNat = 0xfeff

/-- Model of `String.prototype.trim`. -/
def jsTrimL (s : List Char) : List Char :=
  (s.dropWhile jsIsWs).reverse.dropWhile jsIsWs |>.reverse

/-- Model of `String.prototype.trim` on `String`. -/
def jsTrim (s : String) : String :=
  String.mk (jsTrimL s.data)

/-- Model of `.replace(/\s+/g, ' ')`: every maximal run of whitespace
becomes a single space.  The `Bool` argument records whether the
previous character was whitespace. -/
def collapseWsL : Bool → List Char → List Char
  | _, [] => []
  | prevWs, c :: cs =>
    if jsIsWs c then
      if prevWs then collapseWsL true cs else ' ' :: collapseWsL true cs
    else c :: collapseWsL false cs

/-- Model of `.replace(/[​-‍﻿]/g, '')`: strip zero-width
and BOM characters. -/
def stripInvisibleL (s : List Char) : List Char :=
  s.filter (fun c => !(0x200b ≤ c.toNat && c.toNat ≤ 0x200d) && c.toNat ≠ 0xfeff)

/-- Model of `String.prototype.startsWith`. -/
def jsStartsWith (s pre : String) : Bool :=
  pre.data.isPrefixOf s.data

/-- Model of `String.prototype.endsWith`. -/
def jsEndsWith (s suf : String) : Bool :=
  suf.data.isSuffixOf s.data

/-- Model of `String.prototype.toLowerCase` (ASCII range). -/
def jsToLower (s : String) : String :=
  String.mk (s.data.map Char.toLower)

/-- Model of a global single-character `String.prototype.replace`
(`.replace(/c/g, repl)`). -/
def replaceAllChar (s : String) (c : Char) (repl : String) : String :=
  String.mk (s.data.flatMap (fun x => if x = c then repl.data else [x]))

/-- Model of `String.prototype.slice(0, n)` for nonnegative `n`. -/
def jsTake (s : String) (n : Nat) : String :=
  String.mk (s.data.take n)

/-- Model of `String.prototype.slice(0, -1)`. -/
def jsDropLast (s : String) : String :=
  String.mk s.data.dropLast

/-- Length of a string in characters (model of JS `.length`; the inputs
this development meets stay in the basic multilingual plane, where the
two notions of length agree). -/
def jsLength (s : String) : Nat :=
  s.data.length

/-- Split a character list at every separator recognised by `p`.
Always returns at least one (possibly empty) group. -/
def splitChars (p : Char → Bool) : List Char → List (List Char)
  | [] => [[]]
  | c :: cs =>
    match splitChars p cs with
    | [] => [[c]]
    | g :: gs => if p c then [] :: g :: gs else (c :: g) :: gs

/-- Split a string on a single separator character. -/
def splitOnChar (s : String) (sep : Char) : List String :=
  (splitChars (fun c => c = sep) s.data).map String.mk

/-- Uppercase hexadecimal digit. -/
def hexDigitU (n : Nat) : Char :=
  if n < 10 then Char.ofNat (48 + n) else Char.ofNat (55 + n)

/-- Percent-encode one byte, uppercase hex, as `%XY`. -/
def pctByte (b : Nat) : List Char :=
  ['%', hexDigitU (b / 16), hexDigitU (b % 16)]

/-- UTF-8 encoding of one scalar value as a byte list. -/
def utf8Bytes (c : Char) : List Nat :=
  let n := c.toNat
  if n < 0x80 then [n]
  else if n < 0x800 then [0xc0 + n / 64, 0x80 + n % 64]
  else if n < 0x10000 then [0xe0 + n / 4096, 0x80 + (n / 64) % 64, 0x80 + n % 64]
  else [0xf0 + n / 262144, 0x80 + (n / 4096) % 64, 0x80 + (n / 64) % 64, 0x80 + n % 64]

/-- Percent-encode a character as the percent-encoded bytes of its UTF-8
encoding. -/
def pctEncodeChar (c : Char) : List Char :=
  (utf8Bytes c).flatMap pctByte

/-- Numeric value of a decimal digit string. -/
def digitsVal (cs : List Char) : Nat :=
  cs.foldl (fun a c => a * 10 + (c.toNat - 48)) 0

/-- Numeric value of a hexadecimal digit, if any. -/
def hexVal (c : Char) : Option Nat :=
  if '0' ≤ c ∧ c ≤ '9' then some (c.toNat - 48)
  else if 'A' ≤ c ∧ c ≤ 'F' then some (c.toNat - 55)
  else if 'a' ≤ c ∧ c ≤ 'f' then some (c.toNat - 87)
  else none

/-- Whether a byte is a UTF-8 continuation byte. -/
def isCont (b : Nat) : Bool :=
  0x80 ≤ b && b ≤ 0xbf

/-- Model of `decodeURIComponent`: decode every `%XY` escape, demanding
well-formed UTF-8 percent-encoded sequences; `none` models the thrown
`URIError`. -/
def decodeURIComponentL : List Char → Option (List Char)
  | [] => some []
  | '%' :: h1 :: h2 :: cs => do
    let hv1 ← hexVal h1
    let hv2 ← hexVal h2
    let b := hv1 * 16 + hv2
    if b < 0x80 then
      return Char.ofNat b :: (← decodeURIComponentL cs)
    else if 0xc2 ≤ b ∧ b ≤ 0xdf then
      match cs with
      | '%' :: h3 :: h4 :: cs2 => do
        let hv3 ← hexVal h3
        let hv4 ← hexVal h4
        let b2 := hv3 * 16 + hv4
        if isCont b2 then
          return Char.ofNat ((b - 0xc0) * 64 + (b2 - 0x80)) :: (← decodeURIComponentL cs2)
        else none
      | _ => none
    else if 0xe0 ≤ b ∧ b ≤ 0xef then
      match cs with
      | '%' :: h3 :: h4 :: '%' :: h5 :: h6 :: cs2 => do
        let hv3 ← hexVal h3
        let hv4 ← hexVal h4
        let hv5 ← hexVal h5
        let hv6 ← hexVal h6
        let b2 := hv3 * 16 + hv4
        let b3 := hv5 * 16 + hv6
        let lo2 := if b = 0xe0 then 0xa0 else 0x80
        let hi2 := if b = 0xed then 0x9f else 0xbf
        if (lo2 ≤ b2 ∧ b2 ≤ hi2) ∧ isCont b3 then
          return Char.ofNat ((b - 0xe0) * 4096 + (b2 - 0x80) * 64 + (b3 - 0x80)) ::
            (← decodeURIComponentL cs2)
        else none
      | _ => none
    else if 0xf0 ≤ b ∧ b ≤ 0xf4 then
      match cs with
      | '%' :: h3 :: h4 :: '%' :: h5 :: h6 :: '%' :: h7 :: h8 :: cs2 => do
        let hv3 ← hexVal h3
        let hv4 ← hexVal h4
        let hv5 ← hexVal h5
        let hv6 ← hexVal h6
        let hv7 ← hexVal h7
        let hv8 ← hexVal h8
        let b2 := hv3 * 16 + hv4
        let b3 := hv5 * 16 + hv6
        let b4 := hv7 * 16 + hv8
        let lo2 := if b = 0xf0 then 0x90 else 0x80
        let hi2 := if b = 0xf4 then 0x8f else 0xbf
        if (lo2 ≤ b2 ∧ b2 ≤ hi2) ∧ isCont b3 ∧ isCont b4 then
          return Char.ofNat
            ((b - 0xf0) * 262144 + (b2 - 0x80) * 4096 + (b3 - 0x80) * 64 + (b4 - 0x80)) ::
            (← decodeURIComponentL cs2)
        else none
      | _ => none
    else none
  | c :: cs => do
    return c :: (← decodeURIComponentL cs)

/-- Model of `decodeURIComponent` on `String`; `none` models the thrown
`URIError`. -/
def decodeURIComponentS (s : String) : Option String :=
  (decodeURIComponentL s.data).map String.mk

/-- Model of the `decodeURIComponentSafe` helper (webclone.js:2131),
which returns the original string when decoding throws. -/
def decodeURIComponentSafe (s : String) : String :=
  match decodeURIComponentS s with
  | some d => d
  | none => s

/-! ## Model of the WHATWG `URL` platform class

The crawler relies on the host platform's `URL` parser.  The model
below covers the fragment of the WHATWG URL standard that this
development exercises: scheme parsing, special (`http`/`https`)
authority splitting with port normalisation, path parsing with `.`/`..`
segment handling and percent-encoding, query and fragment splitting,
and serialisation.  Inputs outside the modelled fragment (userinfo,
IPv6/IDNA hosts) are treated as parse failures. -/

/-- Characters allowed after the first character of a URL scheme. -/
def schemeChar (c : Char) : Bool :=
  c.isAlphanum || c = '+' || c = '-' || c = '.'

/-- Characters the model accepts inside an (already lowercased) host. -/
def hostChar (c : Char) : Bool :=
  c.isAlphanum || c = '.' || c = '-' || c = '_'

/-- Percent-encode set for URL path segments (C0 controls, non-ASCII,
space, quote, hash, angle brackets, question mark, backtick, braces). -/
def pathEncSet (c : Char) : Bool :=
  c.toNat < 0x20 || c.toNat > 0x7e || c = ' ' || c = '"' || c = '#' ||
  c = '<' || c = '>' || c = '?' || c = '\x60' || c = '\x7b' || c = '\x7d'

/-- Percent-encode set for the query of a special URL. -/
def queryEncSet (c : Char) : Bool :=
  c.toNat < 0x20 || c.toNat > 0x7e || c = ' ' || c = '"' || c = '#' ||
  c = '<' || c = '>' || c = '\x27'

/-- Percent-encode set for the fragment. -/
def fragEncSet (c : Char) : Bool :=
  c.toNat < 0x20 || c.toNat > 0x7e || c = ' ' || c = '"' ||
  c = '<' || c = '>' || c = '\x60'

/-- Encode a character list against an encode set. -/
def encodeWith (enc : Char → Bool) (cs : List Char) : List Char :=
  cs.flatMap (fun c => if enc c then pctEncodeChar c else [c])

/-- Parsed URL, mirroring the properties of a JS `URL` object that the
crawler reads (`protocol` keeps its trailing colon, `search` its
leading `?`, `hash` its leading `#`).  `opaquePath` marks non-special
schemes such as `mailto:`, whose remainder is stored in `pathname`. -/
structure URLRec where
  protocol : String
  hostname : String
  port : String
  pathname : String
  search : String
  hash : String
  opaquePath : Bool
deriving DecidableEq, Repr

/-- The `host` property: hostname plus any explicit port. -/
def URLRec.host (u : URLRec) : String :=
  if u.port = "" then u.hostname else u.hostname ++ ":" ++ u.port

/-- Whether a raw path segment is a single-dot segment. -/
def isSingleDotSeg (s : List Char) : Bool :=
  jsToLower (String.mk s) = "." || jsToLower (String.mk s) = "%2e"

/-- Whether a raw path segment is a double-dot segment. -/
def isDoubleDotSeg (s : List Char) : Bool :=
  jsToLower (String.mk s) = ".." || jsToLower (String.mk s) = ".%2e" ||
  jsToLower (String.mk s) = "%2e." || jsToLower (String.mk s) = "%2e%2e"

/-- Path-segment processing of the URL path parser: walk the raw
segments, dropping `.`, popping on `..` (appending an empty segment
when the dotted segment is final, which preserves a trailing slash),
and percent-encoding ordinary segments. -/
def dotSegs (acc : List (List Char)) : List (List Char) → List (List Char)
  | [] => acc
  | seg :: rest =>
    if isDoubleDotSeg seg then
      if rest.isEmpty then acc.dropLast ++ [[]]
      else dotSegs acc.dropLast rest
    else if isSingleDotSeg seg then
      if rest.isEmpty then acc ++ [[]]
      else dotSegs acc rest
    else dotSegs (acc ++ [encodeWith pathEncSet seg]) rest

/-- URL path parser for a special scheme: the input is the raw path
including its leading slash; the result is the serialised `pathname`. -/
def parsePath (cs : List Char) : String :=
  let rawSegs := (splitChars (fun c => c = '/' || c = '\\') cs).drop 1
  let segs := dotSegs [] rawSegs
  String.mk ('/' :: List.intercalate ['/'] segs)

/-- Parse the authority (host and optional port) of a special URL;
`none` models a thrown `TypeError`. -/
def parseAuthority (scheme : String) (authCs : List Char) : Option (String × String) :=
  if authCs = [] then none
  else if authCs.contains '@' || authCs.contains '[' then none
  else
    let hostPart := (splitChars (fun c => c = ':') authCs).headD []
    let portParts := (splitChars (fun c => c = ':') authCs).drop 1
    if portParts.length > 1 then none
    else
      let hostLower := hostPart.map Char.toLower
      if hostLower = [] || !hostLower.all hostChar then none
      else
        match portParts with
        | [] => some (String.mk hostLower, "")
        | portCs :: _ =>
          if portCs = [] then some (String.mk hostLower, "")
          else if !portCs.all Char.isDigit then none
          else
            let n := digitsVal portCs
            if (scheme = "http" ∧ n = 80) ∨ (scheme = "https" ∧ n = 443) then
              some (String.mk hostLower, "")
            else some (String.mk hostLower, Nat.repr n)

/-- Parse everything after the authority of a special URL: path, query
and fragment. -/
def parseAfterAuthority (after : List Char) : String × String × String :=
  let pathCs := after.takeWhile (fun c => c ≠ '?' && c ≠ '#')
  let rest := after.dropWhile (fun c => c ≠ '?' && c ≠ '#')
  let pathname := if pathCs = [] then "/" else parsePath pathCs
  match rest with
  | '?' :: qrest =>
    let qCs := qrest.takeWhile (fun c => c ≠ '#')
    let frest := qrest.dropWhile (fun c => c ≠ '#')
    let search := if qCs = [] then "" else String.mk ('?' :: encodeWith queryEncSet qCs)
    match frest with
    | '#' :: fCs =>
      let hash := if fCs = [] then "" else String.mk ('#' :: encodeWith fragEncSet fCs)
      (pathname, search, hash)
    | _ => (pathname, search, "")
  | '#' :: fCs =>
    let hash := if fCs = [] then "" else String.mk ('#' :: encodeWith fragEncSet fCs)
    (pathname, "", hash)
  | _ => (pathname, "", "")

/-- Model of `new URL(input)` for an absolute input; `none` models the
thrown `TypeError`. -/
def parseURL (s : String) : Option URLRec :=
  let cs := (jsTrimL s.data).filter (fun c => c ≠ '\t' && c ≠ '\n' && c ≠ '\r')
  match cs with
  | [] => none
  | c0 :: _ =>
    if !c0.isAlpha then none
    else
      let schemeCs := cs.takeWhile schemeChar
      let rest := cs.dropWhile schemeChar
      match rest with
      | ':' :: rest2 =>
        let scheme := jsToLower (String.mk schemeCs)
        if scheme = "http" ∨ scheme = "https" then
          let rest3 := rest2.dropWhile (fun c => c = '/' || c = '\\')
          let authCs := rest3.takeWhile (fun c => c ≠ '/' && c ≠ '\\' && c ≠ '?' && c ≠ '#')
          let after := rest3.dropWhile (fun c => c ≠ '/' && c ≠ '\\' && c ≠ '?' && c ≠ '#')
          match parseAuthority scheme authCs with
          | none => none
          | some (host, port) =>
            let (pathname, search, hash) := parseAfterAuthority after
            some {
              protocol := scheme ++ ":", hostname := host, port := port,
              pathname := pathname, search := search, hash := hash,
              opaquePath := false }
        else
          some {
            protocol := scheme ++ ":", hostname := "", port := "",
            pathname := String.mk rest2, search := "", hash := "",
            opaquePath := true }
      | _ => none

/-- Model of the JS `url.pathname = value` setter for a special URL:
the value is run through the URL path parser. -/
def setPathname (u : URLRec) (value : String) : URLRec :=
  if u.opaquePath then u
  else
    let cs := value.data.filter (fun c => c ≠ '\t' && c ≠ '\n' && c ≠ '\r')
    match cs with
    | [] => { u with pathname := "/" }
    | '/' :: _ => { u with pathname := parsePath cs }
    | '\\' :: _ => { u with pathname := parsePath cs }
    | _ => { u with pathname := parsePath ('/' :: cs) }

/-- Model of `url.toString()` / `url.href`. -/
def urlToString (u : URLRec) : String :=
  if u.opaquePath then u.protocol ++ u.pathname ++ u.search ++ u.hash
  else u.protocol ++ "//" ++ u.host ++ u.pathname ++ u.search ++ u.hash

/-- Lenient percent-decoding used by `URLSearchParams`: ill-formed
escapes are kept verbatim instead of raising. -/
def lenientDecode : List Char → List Char
  | [] => []
  | '%' :: h1 :: h2 :: cs =>
    match hexVal h1, hexVal h2 with
    | some v1, some v2 =>
      if v1 * 16 + v2 < 0x80 then Char.ofNat (v1 * 16 + v2) :: lenientDecode cs
      else '%' :: h1 :: h2 :: lenientDecode cs
    | _, _ => '%' :: h1 :: h2 :: lenientDecode cs
  | c :: cs => c :: lenientDecode cs

/-- Model of `url.searchParams.get(name)`: split the query on `&` and
`=`, decoding `+` as space and percent-escapes leniently (restricted to
the ASCII inputs this development meets). -/
def searchParamsGet (search : String) (name : String) : Option String :=
  let body := if jsStartsWith search "?" then search.data.drop 1 else search.data
  let pairs := (splitChars (fun c => c = '&') body).filter (· ≠ [])
  let dec := fun (cs : List Char) =>
    String.mk (lenientDecode (cs.map (fun c => if c = '+' then ' ' else c)))
  let find := pairs.filter (fun p =>
    dec (p.takeWhile (fun c => c ≠ '=')) = name)
  match find with
  | [] => none
  | p :: _ =>
    let rest := p.dropWhile (fun c => c ≠ '=')
    match rest with
    | '=' :: v => some (dec v)
    | _ => some ""

/-! ## Model of Node's `path` module (POSIX flavour)

`path.resolve` depends on the process working directory, which is
passed explicitly as the `cwd` argument (assumed absolute). -/

/-- Fold one raw segment into a normalised absolute segment stack. -/
def absSegStep (acc : List String) (seg : String) : List String :=
  if seg = "" ∨ seg = "." then acc
  else if seg = ".." then acc.dropLast
  else acc ++ [seg]

/-- Segments of an absolute, normalised form of a path string. -/
def absSegs (p : String) : List String :=
  ((splitOnChar p '/').foldl absSegStep [])

/-- Model of `path.resolve(p)` against working directory `cwd`. -/
def pathResolve (cwd p : String) : String :=
  let full := if jsStartsWith p "/" then p else cwd ++ "/" ++ p
  "/" ++ String.intercalate "/" (absSegs full)

/-- Fold one raw segment into a normalised relative segment stack
(`..` is kept when it cannot be cancelled). -/
def relSegStep (acc : List String) (seg : String) : List String :=
  if seg = "" ∨ seg = "." then acc
  else if seg = ".." then
    if acc ≠ [] ∧ acc.getLast? ≠ some ".." then acc.dropLast else acc ++ [".."]
  else acc ++ [seg]

/-- Model of `path.normalize` on a relative path without a trailing
slash (the only shape this development joins). -/
def normalizeRel (p : String) : String :=
  let segs := (splitOnChar p '/').foldl relSegStep []
  if segs = [] then "." else String.intercalate "/" segs

/-- Model of variadic `path.join` over the given parts. -/
def pathJoinList (parts : List String) : String :=
  let nonEmpty := parts.filter (· ≠ "")
  if nonEmpty = [] then "."
  else
    let joined := String.intercalate "/" nonEmpty
    if jsStartsWith joined "/" then "/" ++ String.intercalate "/" (absSegs joined)
    else normalizeRel joined

/-- Model of binary `path.join`. -/
def pathJoin (a b : String) : String :=
  pathJoinList [a, b]

/-- Model of `path.dirname` (POSIX): index of the last slash that is
followed by a non-slash character, computed like Node's scan from the
end of the string. -/
def pathDirname (p : String) : String :=
  if p = "" then "."
  else
    let cs := p.data
    let hasRoot := jsStartsWith p "/"
    let afterTrailing := cs.reverse.dropWhile (fun c => c = '/')
    let fromSlash := afterTrailing.dropWhile (fun c => c ≠ '/')
    if fromSlash.length < 2 then (if hasRoot then "/" else ".")
    else if hasRoot ∧ fromSlash.length = 2 then "//"
    else String.mk (cs.take (fromSlash.length - 1))

/-- Model of `path.basename(p)` (no extension argument). -/
def pathBasenameRaw (p : String) : String :=
  ((splitOnChar p '/').filter (· ≠ "")).getLastD ""

/-- Model of `path.extname`. -/
def pathExtname (p : String) : String :=
  let base := pathBasenameRaw p
  if base = ".." ∨ base = "." then ""
  else
    let afterDot := base.data.reverse.takeWhile (fun c => c ≠ '.')
    if afterDot.length = base.data.length then ""
    else if afterDot.length + 1 = base.data.length then ""
    else String.mk (base.data.drop (base.data.length - afterDot.length - 1))

/-- Model of `path.basename(p, ext)`: the final segment, with `ext`
stripped when it is a proper suffix. -/
def pathBasename (p ext : String) : String :=
  let base := pathBasenameRaw p
  if ext ≠ "" ∧ jsEndsWith base ext ∧ base ≠ ext then
    String.mk (base.data.take (base.data.length - ext.data.length))
  else base

/-- Model of `path.relative(from, to)` against working directory
`cwd`: both sides are resolved, the common segment prefix is dropped,
and each remaining `from` segment contributes one `..`. -/
def pathRelative (cwd fromP toP : String) : String :=
  let f := pathResolve cwd fromP
  let t := pathResolve cwd toP
  if f = t then ""
  else
    let fs := (splitOnChar f '/').filter (· ≠ "")
    let ts := (splitOnChar t '/').filter (· ≠ "")
    let common := (List.zip fs ts).takeWhile (fun p => p.1 = p.2) |>.length
    String.intercalate "/" (List.replicate (fs.length - common) ".." ++ ts.drop common)

/-! ## URL normalisation and domain helpers (webclone.js) -/

/-- Model of `getBaseDomain` (webclone.js:2053): the last two
dot-separated labels of a hostname. -/
def getBaseDomain (hostname : String) : String :=
  let parts := splitOnChar hostname '.'
  if parts.length ≤ 2 then hostname
  else String.intercalate "." (parts.reverse.take 2).reverse

/-- Model of `normalizeUrl` (webclone.js:2068).  Mirrors the source:
trim and collapse whitespace; parse with `new URL`; reject non-HTTP(S)
protocols with `""`; strip the fragment; decode and re-encode the
pathname; strip one trailing slash; serialise and strip invisible
characters.  When `new URL` or `decodeURIComponent` throws, the catch
branch returns the trimmed input itself (not `""`). -/
def normalizeUrl (urlString : String) : String :=
  if urlString = "" then ""
  else
    let urlStr := String.mk (collapseWsL false (jsTrimL urlString.data))
    let fallback := String.mk (stripInvisibleL (jsTrimL urlStr.data))
    match parseURL urlStr with
    | none => fallback
    | some url =>
      if url.protocol ≠ "http:" ∧ url.protocol ≠ "https:" then ""
      else
        let url := { url with hash := "" }
        match decodeURIComponentS url.pathname with
        | none => fallback
        | some dec =>
          let url := setPathname url dec
          let url :=
            if url.pathname ≠ "/" ∧ jsEndsWith url.pathname "/" then
              setPathname url (jsDropLast url.pathname)
            else url
          String.mk (stripInvisibleL (jsTrimL (urlToString url).data))

/-! ## Constants and data model (webclone.js) -/

/-- Model of the `EXT_MAP` table (webclone.js:377). -/
def EXT_MAP : List (String × String) := [
  ("text/html", ".html"), ("text/plain", ".txt"), ("text/css", ".css"),
  ("text/javascript", ".js"), ("application/javascript", ".js"),
  ("application/x-javascript", ".js"), ("application/json", ".json"),
  ("image/png", ".png"), ("image/jpeg", ".jpg"), ("image/jpg", ".jpg"),
  ("image/gif", ".gif"), ("image/webp", ".webp"), ("image/svg+xml", ".svg"),
  ("image/x-icon", ".ico"), ("image/avif", ".avif"), ("image/jp2", ".jp2"),
  ("image/jxr", ".jxr"), ("image/heic", ".heic"), ("image/heif", ".heif"),
  ("font/ttf", ".ttf"), ("font/otf", ".otf"), ("font/woff", ".woff"),
  ("font/woff2", ".woff2"), ("application/manifest+json", ".webmanifest"),
  ("application/wasm", ".wasm"), ("application/xml", ".xml"),
  ("application/xhtml+xml", ".xhtml"), ("application/ld+json", ".jsonld"),
  ("application/graphql", ".graphql"), ("application/rss+xml", ".rss"),
  ("application/atom+xml", ".atom"), ("text/markdown", ".md"),
  ("application/x-yaml", ".yaml"), ("text/yaml", ".yaml"), ("text/xml", ".xml"),
  ("application/pdf", ".pdf"), ("application/msword", ".doc"),
  ("application/vnd.openxmlformats-officedocument.wordprocessingml.document", ".docx"),
  ("application/vnd.ms-excel", ".xls"),
  ("application/vnd.openxmlformats-officedocument.spreadsheetml.sheet", ".xlsx"),
  ("application/vnd.ms-powerpoint", ".ppt"),
  ("application/vnd.openxmlformats-officedocument.presentationml.presentation", ".pptx"),
  ("video/mp4", ".mp4"), ("audio/mpeg", ".mp3"), ("audio/wav", ".wav"),
  ("video/webm", ".webm"), ("audio/webm", ".webm"), ("video/ogg", ".ogg"),
  ("audio/ogg", ".ogg"), ("application/ogg", ".ogg"), ("application/zip", ".zip"),
  ("application/gzip", ".gz"), ("application/x-tar", ".tar"),
  ("application/x-7z-compressed", ".7z"), ("application/x-rar-compressed", ".rar"),
  ("application/octet-stream", ""), ("application/x-shockwave-flash", ".swf"),
  ("text/x-python", ".py"), ("text/x-java-source", ".java"),
  ("text/x-c++src", ".cpp"), ("application/x-sh", ".sh"), ("text/x-ini", ".ini")]

/-- Model of the `HTML_LIKE_EXTENSIONS` set (webclone.js:442). -/
def HTML_LIKE_EXTENSIONS : List String :=
  [".html", ".htm", ".php", ".asp", ".aspx", ".jsp", ".cfm", ".xhtml"]

/-- Maximum file path length (`INTERNAL_CONSTANTS.maxPathLength`). -/
def maxPathLength : Nat := 255

/-- Maximum sanitized path segment length
(`INTERNAL_CONSTANTS.maxSegmentLength`). -/
def maxSegmentLength : Nat := 100

/-- The configuration slice the embedded operations read, plus the md5
`hash` helper, an abstract model of the `crypto` collaborator. -/
structure Config where
  outDir : String
  crawlScope : String
  hashFn : String → String

/-- Model of a `Record` in `CRAWL_STATE.records`. -/
structure Record where
  filePath : String
  contentType : String
  status : Int
  isPage : Bool
  predicted : Bool
  originalUrl : String
deriving DecidableEq, Repr

/-- Model of a crawl job in `CRAWL_STATE.queue`. -/
structure CrawlJob where
  url : String
  depth : Int
  retries : Nat
  crawlId : String
  score : Int
deriving DecidableEq, Repr

/-- The slice of `CRAWL_STATE` (webclone.js:315) that the embedded
operations touch.  JS `Set`s are insertion-ordered lists without
duplicates; JS `Map`s are insertion-ordered association lists. -/
structure CrawlState where
  queue : List CrawlJob
  enqueued : List String
  visited : List String
  records : List (String × Record)
  coolDownUntil : Int
  initialHosts : List String
  initialBaseDomains : List String
  videoUrlMap : List (String × String)
deriving DecidableEq, Repr

/-- The initial `CRAWL_STATE`. -/
def initialState : CrawlState :=
  { queue := [], enqueued := [], visited := [], records := [],
    coolDownUntil := 0, initialHosts := [], initialBaseDomains := [],
    videoUrlMap := [] }

/-- Model of `Set.prototype.add`. -/
def setAdd (s : List String) (x : String) : List String :=
  if s.contains x then s else s ++ [x]

/-- Model of `Map.prototype.get`. -/
def mapGet {α : Type} (m : List (String × α)) (k : String) : Option α :=
  match m.find? (fun p => p.1 = k) with
  | some p => some p.2
  | none => none

/-- Model of `Map.prototype.set`: replace in place, or append a new
entry. -/
def mapSet {α : Type} (m : List (String × α)) (k : String) (v : α) :
    List (String × α) :=
  if (m.find? (fun p => p.1 = k)).isSome then
    m.map (fun p => if p.1 = k then (k, v) else p)
  else m ++ [(k, v)]

/-! ## File-path prediction (webclone.js) -/

/-- Model of `sanitizeSegment` (webclone.js:2119). -/
def sanitizeSegment (s : String) : String :=
  let replaced := s.data.map (fun c =>
    if c = '<' || c = '>' || c = ':' || c = '"' || c = '/' || c = '\\' ||
       c = '|' || c = '?' || c = '*' || c.toNat ≤ 0x1f then '_' else c)
  String.mk ((collapseWsL false replaced).take maxSegmentLength)

/-- Model of `inferExtension` (webclone.js:2190). -/
def inferExtension (urlString contentType : String) : String :=
  let ct := jsToLower (jsTrim ((splitOnChar contentType ';').headD ""))
  match mapGet EXT_MAP ct with
  | some e => e
  | none =>
    match parseURL urlString with
    | none => ""
    | some url =>
      let ext := pathExtname url.pathname
      if ext ≠ "" ∧ jsLength ext ≤ 10 then ext
      else
        let tryHint := fun (hint : String) =>
          let val := jsToLower ((searchParamsGet url.search hint).getD "")
          if val ≠ "" ∧ jsLength val ≤ 6 ∧ val.data.all (fun c => c.isDigit || ('a' ≤ c ∧ c ≤ 'z'))
          then some ("." ++ val) else none
        match tryHint "format" with
        | some e => e
        | none =>
          match tryHint "ext" with
          | some e => e
          | none => (tryHint "type").getD ""

/-- Replace the last element of a list, mirroring the JS idiom
`arr[arr.length - 1] = x`: on an empty array the assignment targets
index `-1`, a plain property, and the array itself is unchanged. -/
def setLast {α : Type} (l : List α) (x : α) : List α :=
  match l with
  | [] => []
  | _ => l.dropLast ++ [x]

/-- Body of `urlToFilePath` (webclone.js:1174) after the initial
`new URL(url)` has succeeded, producing `urlObj`. -/
def urlToFilePathCore (cfg : Config) (rootDir url contentType : String)
    (isPageHtml : Bool) (forceExt : String) (urlObj : URLRec) : String :=
    let hostDir := pathJoin rootDir urlObj.host
    let segments := ((splitOnChar urlObj.pathname '/').filter (· ≠ "")).map
      (fun s => sanitizeSegment (decodeURIComponentSafe s))
    let pathHasExt := pathExtname (segments.getLastD "") ≠ ""
    let ext0 := if forceExt ≠ "" then forceExt else inferExtension url contentType
    let (segments, ext) :=
      if isPageHtml then
        (if !pathHasExt then segments ++ ["index.html"]
         else
           let last := segments.getLastD ""
           setLast segments (pathBasename last (pathExtname last) ++ ".html"),
         ".html")
      else
        let segments :=
          if !pathHasExt ∧ ext0 = "" then
            let base := if segments.getLastD "" = "" then "asset" else segments.getLastD ""
            let h := jsTake (cfg.hashFn
              (if urlObj.search ≠ "" then urlObj.search else urlObj.pathname)) 8
            setLast segments (base ++ "-" ++ h)
          else segments
        let segments :=
          if ext0 ≠ "" ∧ (!pathHasExt ∨ ext0 ≠ pathExtname (segments.getLastD "")) then
            let segments := if segments = [] then ["asset"] else segments
            setLast segments (segments.getLastD "" ++ ext0)
          else segments
        (segments, ext0)
    let queryKey := if urlObj.search ≠ "" then jsTake (cfg.hashFn urlObj.search) 6 else ""
    let segments :=
      if queryKey ≠ "" then
        let last := if segments.getLastD "" = "" then "index" else segments.getLastD ""
        let base := pathBasename last (pathExtname last)
        let fileExt := pathExtname last
        setLast segments (base ++ "~" ++ queryKey ++ fileExt)
      else segments
    let finalPath := pathJoinList (hostDir :: segments)
    if jsLength finalPath > maxPathLength then
      pathJoin hostDir (cfg.hashFn (urlObj.pathname ++ urlObj.search) ++ ext)
    else finalPath

/-- Model of `urlToFilePath` (webclone.js:1174); `none` models the
`TypeError` thrown by `new URL` on an unparseable input. -/
def urlToFilePath (cfg : Config) (rootDir url contentType : String)
    (isPageHtml : Bool) (forceExt : String) : Option String :=
  match parseURL url with
  | none => none
  | some urlObj =>
    some (urlToFilePathCore cfg rootDir url contentType isPageHtml forceExt urlObj)

/-! ## Record prediction and finalisation (webclone.js:1984, 2027) -/

/-- The record the common tail of `predictRecord` (webclone.js:1994)
computes: the extension of the parsed pathname, the page guess, and
the predicted file path.  `none` models the uncaught `TypeError`
raised by `new URL(normalizedUrl)` when the normalised URL is still
unparseable. -/
def predictedRecordFor (cfg : Config) (normalizedUrl : String)
    (guessIsPage : Bool) (foundOnUrl : String) : Option Record :=
  match parseURL normalizedUrl with
  | none => none
  | some urlObj =>
    let extension := jsToLower (pathExtname urlObj.pathname)
    let looksPage := guessIsPage || HTML_LIKE_EXTENSIONS.contains extension ||
      extension = ""
    match urlToFilePath cfg cfg.outDir normalizedUrl
        (if looksPage then "text/html" else "") looksPage "" with
    | some filePath =>
      some {
        filePath := filePath,
        contentType := if looksPage then "text/html" else "",
        status := 0, isPage := looksPage, predicted := true,
        originalUrl := if foundOnUrl ≠ "" then foundOnUrl else normalizedUrl }
    | none => none

/-- Common tail of `predictRecord`: compute the predicted record and
store it under the normalised URL; `.error ()` is the uncaught
`TypeError`, raised before any mutation. -/
def predictRecordBody (cfg : Config) (normalizedUrl : String)
    (guessIsPage : Bool) (foundOnUrl : String) (st : CrawlState) :
    Except Unit (CrawlState × Option Record) :=
  match predictedRecordFor cfg normalizedUrl guessIsPage foundOnUrl with
  | none => .error ()
  | some rec0 =>
    .ok ({ st with records := mapSet st.records normalizedUrl rec0 }, some rec0)

/-- Model of `predictRecord` (webclone.js:1984).  `foundOnUrl = ""`
models the `null` default.  A record that is already finalised
(`predicted === false`) is returned untouched. -/
def predictRecord (cfg : Config) (url : String) (guessIsPage : Bool)
    (foundOnUrl : String) (st : CrawlState) :
    Except Unit (CrawlState × Option Record) :=
  if normalizeUrl url = "" then .ok (st, none)
  else
    match mapGet st.records (normalizeUrl url) with
    | some ex =>
      if ex.predicted = false then .ok (st, some ex)
      else predictRecordBody cfg (normalizeUrl url) guessIsPage foundOnUrl st
    | none => predictRecordBody cfg (normalizeUrl url) guessIsPage foundOnUrl st

/-- Model of `finalizeRecord` (webclone.js:2027).  The URL is used as
the map key without normalisation; an already-finalised record is
never touched.  `foundOnUrl = ""` models the `null` default. -/
def finalizeRecord (url filePath contentType : String) (status : Int)
    (isPage : Bool) (foundOnUrl : String) (st : CrawlState) : CrawlState :=
  match mapGet st.records url with
  | some ex =>
    if ex.predicted = false then st
    else
      { st with records := mapSet st.records url {
          filePath := filePath, contentType := contentType, status := status,
          isPage := isPage, predicted := false,
          originalUrl :=
            if foundOnUrl ≠ "" then foundOnUrl
            else if ex.originalUrl ≠ "" then ex.originalUrl else url } }
  | none =>
    { st with records := mapSet st.records url {
        filePath := filePath, contentType := contentType, status := status,
        isPage := isPage, predicted := false,
        originalUrl := if foundOnUrl ≠ "" then foundOnUrl else url } }

/-! ## Scheduler: priority queue (webclone.js:1911, 1936) -/

/-- The comparator `compare` inside `getInsertIndex` (webclone.js:1918):
ascending score, then descending depth, so the highest-priority job
sits at the end of the array. -/
def compareJobs (a b : CrawlJob) : Int :=
  if a.score ≠ b.score then a.score - b.score else b.depth - a.depth

/-- The binary-search loop of `getInsertIndex` (webclone.js:1925),
written with explicit fuel (any fuel above `high - low` reaches the
fixpoint). -/
def insertIdxGo (job : CrawlJob) (q : List CrawlJob) :
    Nat → Nat → Nat → Nat
  | 0, low, _ => low
  | fuel + 1, low, high =>
    if low < high then
      let mid := (low + high) / 2
      if 0 ≤ compareJobs job (q.getD mid job) then
        insertIdxGo job q fuel (mid + 1) high
      else
        insertIdxGo job q fuel low mid
    else low

/-- Model of `getInsertIndex` (webclone.js:1911): upper-bound binary
search over the queue. -/
def getInsertIndex (job : CrawlJob) (q : List CrawlJob) : Nat :=
  insertIdxGo job q (q.length + 1) 0 q.length

/-- Model of `Array.prototype.splice(index, 0, job)`. -/
def spliceInsert (q : List CrawlJob) (index : Nat) (job : CrawlJob) :
    List CrawlJob :=
  q.take index ++ job :: q.drop index

/-- Ordered insertion as `enqueue` performs it (webclone.js:1969). -/
def insertJob (job : CrawlJob) (q : List CrawlJob) : List CrawlJob :=
  spliceInsert q (getInsertIndex job q) job

/-- The crawl-scope enforcement block of `enqueue`
(webclone.js:1941-1960) on an already-normalised URL: `true` means the
URL may be enqueued.  A `new URL` failure inside the block is caught
and rejects the URL. -/
def scopePermits (cfg : Config) (st : CrawlState) (norm : String) : Bool :=
  if cfg.crawlScope ≠ "cross-domains" then
    match parseURL norm with
    | none => false
    | some u =>
      if cfg.crawlScope = "same-domain" then
        st.initialHosts.contains u.hostname
      else if cfg.crawlScope = "subdomains" then
        st.initialBaseDomains.contains (getBaseDomain u.hostname)
      else true
  else true

/-- The job literal `enqueue` builds (webclone.js:1966): the crawl id
is the first eight characters of the md5 hash of the normalised URL. -/
def mkJob (cfg : Config) (u : String) (d s : Int) : CrawlJob :=
  { url := u, depth := d, retries := 0, crawlId := jsTake (cfg.hashFn u) 8,
    score := s }

/-- The state mutations `enqueue` performs before calling
`predictRecord` (webclone.js:1964-1970): mark the URL enqueued and
splice the job into the sorted queue. -/
def enqueueInsert (cfg : Config) (u : String) (d s : Int)
    (st : CrawlState) : CrawlState :=
  { st with
    enqueued := setAdd st.enqueued u,
    queue := spliceInsert st.queue (getInsertIndex (mkJob cfg u d s) st.queue)
      (mkJob cfg u d s) }

/-- Model of `enqueue` (webclone.js:1936).  The returned `Bool` is
`true` when the call terminated with an uncaught exception (raised by
`predictRecord` after the queue and the enqueued set were already
mutated, so those mutations persist). -/
def enqueue (cfg : Config) (url : String) (depth : Int) (score : Int)
    (st : CrawlState) : CrawlState × Bool :=
  if normalizeUrl url = "" || st.enqueued.contains (normalizeUrl url) ||
      st.visited.contains (normalizeUrl url) then
    (st, false)
  else if !scopePermits cfg st (normalizeUrl url) then (st, false)
  else
    match predictRecord cfg (normalizeUrl url) true ""
        (enqueueInsert cfg (normalizeUrl url) depth score st) with
    | .ok (st2, _) => (st2, false)
    | .error _ => (enqueueInsert cfg (normalizeUrl url) depth score st, true)

/-- Model of `CRAWL_STATE.queue.pop()` in `worker` (webclone.js:712):
remove and return the job at the tail of the queue. -/
def queuePop (q : List CrawlJob) : Option CrawlJob × List CrawlJob :=
  (q.getLast?, q.dropLast)

/-- Repeated `pop()` with explicit fuel. -/
def popSeqFuel : Nat → List CrawlJob → List CrawlJob
  | 0, _ => []
  | fuel + 1, q =>
    match queuePop q with
    | (none, _) => []
    | (some j, rest) => j :: popSeqFuel fuel rest

/-- The sequence of jobs obtained by repeatedly calling `pop()` on the
queue until it is empty. -/
def popSeq (q : List CrawlJob) : List CrawlJob :=
  popSeqFuel q.length q

/-- Model of the scope-anchor seeding loop in `main`
(webclone.js:503-511): record the hostname and base domain of each
parseable start URL. -/
def seedScope (startUrls : List String) (st : CrawlState) : CrawlState :=
  startUrls.foldl (fun st startUrl =>
    match parseURL startUrl with
    | none => st
    | some u =>
      { st with
        initialHosts := setAdd st.initialHosts u.hostname,
        initialBaseDomains := setAdd st.initialBaseDomains (getBaseDomain u.hostname) })
    st

/-! ## Rate-limit cooldown (webclone.js:2154) -/

/-- The deadline a single `activateRateLimitCoolDown` call proposes
(webclone.js:2177): the current time plus the non-negative part of the
computed cooldown duration. -/
def coolDownProposal (now coolDownMs : Int) : Int :=
  now + max 0 coolDownMs

/-- Model of the deadline update of `activateRateLimitCoolDown`
(webclone.js:2176-2181).  `coolDownMs` is the duration computed by the
earlier part of the function (from a `Retry-After` header in seconds
or date form, or from the randomised default backoff); `now` models
`Date.now()`.  The global deadline is only ever extended. -/
def activateRateLimitCoolDown (now coolDownMs coolDownUntil : Int) : Int :=
  let newCoolDownUntil := now + max 0 coolDownMs
  if newCoolDownUntil > coolDownUntil then newCoolDownUntil else coolDownUntil

/-- A finite sequence of cooldown-extension calls, each given by the
pair (`Date.now()` at the call, computed duration). -/
def applyCoolDowns (init : Int) (calls : List (Int × Int)) : Int :=
  calls.foldl (fun acc c => activateRateLimitCoolDown c.1 c.2 acc) init

/-! ## Attribute escaping (webclone.js:2242) -/

/-- The set of characters `encodeURI` leaves unescaped. -/
def encodeURIUnescaped (c : Char) : Bool :=
  c.isAlphanum || c = '-' || c = '_' || c = '.' || c = '!' || c = '~' ||
  c = '*' || c = '\x27' || c = '(' || c = ')' || c = ';' || c = '/' ||
  c = '?' || c = ':' || c = '@' || c = '&' || c = '=' || c = '+' ||
  c = '$' || c = ',' || c = '#'

/-- Model of the JS global `encodeURI`: every character outside the
unescaped set (including `%` itself) is replaced by the
percent-encoded bytes of its UTF-8 encoding. -/
def encodeURI (s : String) : String :=
  String.mk (s.data.flatMap (fun c =>
    if encodeURIUnescaped c then [c] else pctEncodeChar c))

/-- Model of `safeAttrUrl` (webclone.js:2242): `data:` URLs and the
empty (falsy) string pass through; otherwise the URL is run through
`encodeURI` and quotes are replaced by `%27` / `%22`. -/
def safeAttrUrl (url : String) : String :=
  if url = "" then url
  else if jsStartsWith url "data:" then url
  else replaceAllChar (replaceAllChar (encodeURI url) '\x27' "%27") '"' "%22"

/-! ## Link relativisation (webclone.js:2290) -/

/-- The video branch of the relativizer (webclone.js:2297-2305):
relative path from the referencing file's directory to the downloaded
video, prefixed with `./` when not already relative-looking. -/
def relativizeVideo (cwd sourcePath videoPath : String) : String :=
  if !jsStartsWith
        (pathRelative cwd (pathDirname (pathResolve cwd sourcePath)) videoPath)
        "./" &&
      !jsStartsWith
        (pathRelative cwd (pathDirname (pathResolve cwd sourcePath)) videoPath)
        "../" then
    "./" ++ pathRelative cwd (pathDirname (pathResolve cwd sourcePath)) videoPath
  else pathRelative cwd (pathDirname (pathResolve cwd sourcePath)) videoPath

/-- The record branch of the relativizer (webclone.js:2308-2324). -/
def relativizeRecord (cwd sourcePath : String) (record : Record)
    (targetUrl : String) : String :=
  if record.filePath = "" then targetUrl
  else if pathRelative cwd (pathDirname (pathResolve cwd sourcePath))
      (pathResolve cwd record.filePath) = "" then "./"
  else if !jsStartsWith
        (pathRelative cwd (pathDirname (pathResolve cwd sourcePath))
          (pathResolve cwd record.filePath)) "./" &&
      !jsStartsWith
        (pathRelative cwd (pathDirname (pathResolve cwd sourcePath))
          (pathResolve cwd record.filePath)) "../" then
    "./" ++ pathRelative cwd (pathDirname (pathResolve cwd sourcePath))
      (pathResolve cwd record.filePath)
  else
    pathRelative cwd (pathDirname (pathResolve cwd sourcePath))
      (pathResolve cwd record.filePath)

/-- Model of the closure returned by `createRelativizer(sourcePath)`
applied to `targetUrl`, reading the video map and record store of
`st`; `cwd` is the working directory `path.resolve` resolves against. -/
def relativize (cwd : String) (st : CrawlState) (sourcePath targetUrl : String) :
    String :=
  if jsStartsWith targetUrl "data:" then targetUrl
  else if normalizeUrl targetUrl = "" then targetUrl
  else
    match mapGet st.videoUrlMap (normalizeUrl targetUrl) with
    | some videoPath => relativizeVideo cwd sourcePath videoPath
    | none =>
      match mapGet st.records (normalizeUrl targetUrl) with
      | none => targetUrl
      | some record => relativizeRecord cwd sourcePath record targetUrl

/-! ## Video filename negotiation (webclone.js:1580, 1636) -/

/-- Model of the `try`/`catch` orchestration of `getVideoFilePath`
(webclone.js:1636-1644).  `run` models the `runGetFilename` closure,
i.e. one `yt-dlp --get-filename` subprocess invocation with the given
output template; the orchestrator itself only inspects success or the
error message.  The result carries the final outcome together with the
list of output templates that were passed to the tool, in order. -/
def getVideoFilePath (run : String → Except String String) (outDir : String) :
    Except String String × List String :=
  match run (pathJoin outDir "%(title)s.%(ext)s") with
  | .ok p => (.ok p, [pathJoin outDir "%(title)s.%(ext)s"])
  | .error e =>
    if e = "FILE_NAME_TOO_LONG" then
      (run (pathJoin outDir "%(id)s.%(ext)s"),
        [pathJoin outDir "%(title)s.%(ext)s", pathJoin outDir "%(id)s.%(ext)s"])
    else (.error e, [pathJoin outDir "%(title)s.%(ext)s"])

/-! ## Shared test fixtures -/

/-- A hash function standing in for md5 in concrete evaluations (the
checked properties never depend on hash values). -/
def dummyHash (s : String) : String :=
  jsTake ("h" ++ toString (jsLength s) ++ "aaaaaaaaaaaaaaaaaaaaaaaaaaaaaaa") 32

/-- A configuration for the given crawl scope. -/
def cfgScope (scope : String) : Config :=
  { outDir := "./archive", crawlScope := scope, hashFn := dummyHash }

/-- The default configuration (`cross-domains` is the CLI default). -/
def cfgTest : Config := cfgScope "cross-domains"

/-! ## Lemmas about the Map/Set models -/

theorem mapGet_eq_none_iff {α : Type} (m : List (String × α)) (k : String) :
    mapGet m k = none ↔ m.find? (fun p => p.1 = k) = none := by
  unfold mapGet
  cases m.find? (fun p => p.1 = k) <;> simp

theorem find?_mapReplace {α : Type} (m : List (String × α)) (k k' : String)
    (v : α) (h : k' ≠ k) :
    List.find? (fun p => p.1 = k') (m.map (fun p => if p.1 = k then (k, v) else p)) =
      List.find? (fun p => p.1 = k') m := by
  induction m with
  | nil => rfl
  | cons p m ih =>
    rw [List.map_cons]
    by_cases hp : p.1 = k
    · rw [if_pos hp]
      rw [List.find?_cons_of_neg _ (by simp [h.symm]),
        List.find?_cons_of_neg _ (by simp [hp, h.symm])]
      exact ih
    · rw [if_neg hp]
      by_cases hpk' : p.1 = k'
      · rw [List.find?_cons_of_pos _ (by simp [hpk']),
          List.find?_cons_of_pos _ (by simp [hpk'])]
      · rw [List.find?_cons_of_neg _ (by simp [hpk']),
          List.find?_cons_of_neg _ (by simp [hpk'])]
        exact ih

theorem mapGet_mapSet_ne {α : Type} (m : List (String × α)) (k k' : String)
    (v : α) (h : k' ≠ k) : mapGet (mapSet m k v) k' = mapGet m k' := by
  unfold mapSet
  split
  · unfold mapGet
    rw [find?_mapReplace m k k' v h]
  · unfold mapGet
    rw [List.find?_append]
    have hkv : List.find? (fun p => decide (p.1 = k')) [(k, v)] = none := by
      simp [h.symm]
    cases hf : List.find? (fun p => decide (p.1 = k')) m <;>
      simp [hf, hkv]

theorem mapGet_mapSet_fresh {α : Type} (m : List (String × α)) (k : String)
    (v : α) (h : mapGet m k = none) : mapGet (mapSet m k v) k = some v := by
  have hf : m.find? (fun p => p.1 = k) = none := (mapGet_eq_none_iff m k).mp h
  unfold mapSet
  rw [hf]
  simp only [Option.isSome_none, Bool.false_eq_true, if_false]
  unfold mapGet
  rw [List.find?_append, hf]
  simp [List.find?]

theorem setAdd_contains (s : List String) (x : String) :
    (setAdd s x).contains x = true := by
  unfold setAdd
  split
  · assumption
  · simp

/-! ## C2: cooldown deadline monotone running maximum -/

theorem activate_eq_max (now ms acc : Int) :
    activateRateLimitCoolDown now ms acc = max acc (coolDownProposal now ms) := by
  unfold activateRateLimitCoolDown coolDownProposal
  show (if now + max 0 ms > acc then now + max 0 ms else acc) = max acc (now + max 0 ms)
  split <;> omega

theorem applyCoolDowns_cons (init : Int) (c : Int × Int) (calls : List (Int × Int)) :
    applyCoolDowns init (c :: calls) =
      applyCoolDowns (activateRateLimitCoolDown c.1 c.2 init) calls := rfl

/-- C2: for any finite sequence of cooldown-extension calls, each
giving a current time and a proposed duration, the resulting global
deadline is the maximum of the initial deadline and every proposed
deadline, and in particular never moves backward. -/
theorem cooldown_deadline_equals_running_max (init : Int)
    (calls : List (Int × Int)) :
    applyCoolDowns init calls =
      (calls.map (fun c => coolDownProposal c.1 c.2)).foldl max init ∧
    init ≤ applyCoolDowns init calls := by
  constructor
  · induction calls generalizing init with
    | nil => rfl
    | cons c calls ih =>
      rw [applyCoolDowns_cons, activate_eq_max, List.map_cons, List.foldl_cons]
      exact ih (max init (coolDownProposal c.1 c.2))
  · induction calls generalizing init with
    | nil => exact le_refl _
    | cons c calls ih =>
      rw [applyCoolDowns_cons, activate_eq_max]
      exact le_trans (le_max_left _ _) (ih (max init (coolDownProposal c.1 c.2)))

/-! ## C9: video filename fallback -/

/-- C9: when the title-based filename negotiation fails with the
oversized-filename error, `getVideoFilePath` retries exactly once with
the identifier-based template and, when that retry succeeds, returns
its path without re-raising the original error; any other negotiation
failure is propagated to the caller after the single title attempt. -/
theorem video_filename_fallback_retry (run : String → Except String String)
    (outDir p : String) :
    (run (pathJoin outDir "%(title)s.%(ext)s") = .error "FILE_NAME_TOO_LONG" →
      run (pathJoin outDir "%(id)s.%(ext)s") = .ok p →
      getVideoFilePath run outDir =
        (.ok p, [pathJoin outDir "%(title)s.%(ext)s",
                 pathJoin outDir "%(id)s.%(ext)s"])) ∧
    (∀ e, run (pathJoin outDir "%(title)s.%(ext)s") = .error e →
      e ≠ "FILE_NAME_TOO_LONG" →
      getVideoFilePath run outDir =
        (.error e, [pathJoin outDir "%(title)s.%(ext)s"])) := by
  constructor
  · intro h1 h2
    unfold getVideoFilePath
    rw [h1]
    simp [h2]
  · intro e h1 h2
    unfold getVideoFilePath
    rw [h1]
    simp [h2]

/-- An oracle for the witness: the title template is reported
oversized, the identifier template succeeds. -/
def runOversized (t : String) : Except String String :=
  if t = "out/%(title)s.%(ext)s" then .error "FILE_NAME_TOO_LONG"
  else .ok "out/abc123.mp4"

theorem video_filename_fallback_retry_witness :
    getVideoFilePath runOversized "out" =
      (.ok "out/abc123.mp4", [pathJoin "out" "%(title)s.%(ext)s",
                              pathJoin "out" "%(id)s.%(ext)s"]) :=
  (video_filename_fallback_retry runOversized "out" "out/abc123.mp4").1
    (by rfl) (by rfl)

/-! ## C7: a malformed URL does enter the queue under cross-domains -/

/-- C7 (failing execution): `new URL("example.com/page")` throws, so
`normalizeUrl`'s catch branch returns the input itself rather than the
documented empty string; under the default `cross-domains` scope
`enqueue` therefore inserts the malformed string into the queue and
the enqueued set before `predictRecord` raises an uncaught
`TypeError`.  This theorem evaluates the model on that input. -/
theorem malformed_url_enters_queue_bug :
    normalizeUrl "example.com/page" = "example.com/page" ∧
    (enqueue cfgTest "example.com/page" 0 5 initialState).1.queue.countP
      (fun j => j.url = "example.com/page") = 1 ∧
    (enqueue cfgTest "example.com/page" 0 5 initialState).1.enqueued.contains
      "example.com/page" = true ∧
    (enqueue cfgTest "example.com/page" 0 5 initialState).2 = true := by
  refine ⟨by decide, by decide, by decide, by decide⟩

/-! ## C8: attribute escaping double-encodes percent escapes -/

/-- C8 (counterexample): `safeAttrUrl` is built on `encodeURI`, which
re-encodes `%`, so an input already containing the percent-escape
`%20` comes out with `%2520`, contradicting the claim that
already-escaped sequences are left intact. -/
theorem safeAttrUrl_double_encodes_counterexample :
    safeAttrUrl "https://e.com/a%20b" = "https://e.com/a%2520b" ∧
    safeAttrUrl "https://e.com/a%20b" ≠ "https://e.com/a%20b" := by
  refine ⟨by decide, by decide⟩

theorem replaceAllChar_not_mem (s : String) (c : Char) (repl : String)
    (h : c ∉ repl.data) : c ∉ (replaceAllChar s c repl).data := by
  unfold replaceAllChar
  intro hmem
  rcases List.mem_flatMap.mp hmem with ⟨x, _, hx⟩
  by_cases hxc : x = c
  · rw [if_pos hxc] at hx; exact h hx
  · rw [if_neg hxc] at hx
    exact hxc (List.mem_singleton.mp hx).symm

theorem replaceAllChar_not_mem_of_not_mem (s : String) (c a : Char)
    (repl : String) (hs : a ∉ s.data) (hr : a ∉ repl.data) :
    a ∉ (replaceAllChar s c repl).data := by
  unfold replaceAllChar
  intro hmem
  rcases List.mem_flatMap.mp hmem with ⟨x, hxs, hx⟩
  by_cases hxc : x = c
  · rw [if_pos hxc] at hx; exact hr hx
  · rw [if_neg hxc] at hx
    exact hs ((List.mem_singleton.mp hx) ▸ hxs)

/-- C8 (amended): `safeAttrUrl` encodes quote characters — its output
contains no raw single or double quote — but percent signs are
re-encoded, so an input containing `%20` comes out with `%2520`. -/
theorem safeAttrUrl_quotes_encoded_amended (url : String) (h1 : url ≠ "")
    (h2 : jsStartsWith url "data:" = false) :
    ('"' ∉ (safeAttrUrl url).data ∧ '\x27' ∉ (safeAttrUrl url).data) ∧
    safeAttrUrl "https://e.com/a%20b" = "https://e.com/a%2520b" := by
  refine ⟨?_, by decide⟩
  unfold safeAttrUrl
  rw [if_neg h1, if_neg (by simp [h2])]
  constructor
  · exact replaceAllChar_not_mem _ _ _ (by decide)
  · refine replaceAllChar_not_mem_of_not_mem _ _ _ _ ?_ (by decide)
    exact replaceAllChar_not_mem _ _ _ (by decide)

/-! ## C1: a finalised record is immutable -/

/-- A call to one of the two record-store operations, with arbitrary
arguments. -/
inductive RecordOp where
  | predict (url : String) (guessIsPage : Bool) (foundOnUrl : String)
  | finalize (url filePath contentType : String) (status : Int)
      (isPage : Bool) (foundOnUrl : String)

/-- Apply one record-store call to the crawl state.  A `predictRecord`
call that raises leaves the state untouched (the `TypeError` is thrown
before any mutation). -/
def applyRecordOp (cfg : Config) (st : CrawlState) : RecordOp → CrawlState
  | .predict url g f =>
    match predictRecord cfg url g f st with
    | .ok (st2, _) => st2
    | .error _ => st
  | .finalize url fp ct s ip f => finalizeRecord url fp ct s ip f st

/-- Apply a sequence of record-store calls in order. -/
def applyRecordOps (cfg : Config) (ops : List RecordOp) (st : CrawlState) :
    CrawlState :=
  ops.foldl (applyRecordOp cfg) st

theorem predictRecordBody_preserves (cfg : Config) (norm : String)
    (g : Bool) (f u : String) (st : CrawlState) (r : Record)
    (h : mapGet st.records u = some r) (hne : norm ≠ u) :
    ∀ st2 ro, predictRecordBody cfg norm g f st = .ok (st2, ro) →
      mapGet st2.records u = some r := by
  intro st2 ro hok
  unfold predictRecordBody at hok
  cases hr : predictedRecordFor cfg norm g f with
  | none => rw [hr] at hok; cases hok
  | some rec0 =>
    rw [hr] at hok
    cases hok
    rw [mapGet_mapSet_ne st.records norm u rec0 (fun he => hne he.symm)]
    exact h

theorem predictRecord_preserves (cfg : Config) (url : String) (g : Bool)
    (f u : String) (st : CrawlState) (r : Record)
    (h : mapGet st.records u = some r) (hfin : r.predicted = false) :
    ∀ st2 ro, predictRecord cfg url g f st = .ok (st2, ro) →
      mapGet st2.records u = some r := by
  intro st2 ro hok
  unfold predictRecord at hok
  split at hok
  · cases hok; exact h
  · split at hok
    next ex hex =>
      split at hok
      · cases hok; exact h
      · next hexp =>
        by_cases hu : normalizeUrl url = u
        · rw [hu, h] at hex
          cases hex
          exact absurd hfin hexp
        · exact predictRecordBody_preserves cfg _ g f u st r h hu st2 ro hok
    next hex =>
      by_cases hu : normalizeUrl url = u
      · rw [hu, h] at hex; cases hex
      · exact predictRecordBody_preserves cfg _ g f u st r h hu st2 ro hok

theorem applyRecordOp_preserves (cfg : Config) (st : CrawlState)
    (u : String) (r : Record) (h : mapGet st.records u = some r)
    (hfin : r.predicted = false) (op : RecordOp) :
    mapGet (applyRecordOp cfg st op).records u = some r := by
  cases op with
  | predict url g f =>
    simp only [applyRecordOp]
    cases hpr : predictRecord cfg url g f st with
    | ok p =>
      obtain ⟨st2, ro⟩ := p
      exact predictRecord_preserves cfg url g f u st r h hfin st2 ro hpr
    | error e => exact h
  | finalize url fp ct s ip f =>
    simp only [applyRecordOp]
    unfold finalizeRecord
    split
    next ex hex =>
      split
      · exact h
      · have hu : url ≠ u := by
          intro he
          rw [he, h] at hex
          cases hex
          next hexp => exact absurd hfin hexp
        rw [mapGet_mapSet_ne st.records url u _ (fun he => hu he.symm)]
        exact h
    next hex =>
      have hu : url ≠ u := by
        intro he
        rw [he, h] at hex
        cases hex
      rw [mapGet_mapSet_ne st.records url u _ (fun he => hu he.symm)]
      exact h

/-- C1: once a record for a canonical URL is finalised
(`predicted = false`), any sequence of later `predictRecord` /
`finalizeRecord` calls with arbitrary arguments leaves that record
exactly as it is — it stays finalised and its file path, content type
and HTTP status are untouched. -/
theorem finalized_record_is_immutable (cfg : Config) (st : CrawlState)
    (u : String) (r : Record) (h : mapGet st.records u = some r)
    (hfin : r.predicted = false) (ops : List RecordOp) :
    mapGet (applyRecordOps cfg ops st).records u = some r := by
  induction ops generalizing st with
  | nil => exact h
  | cons op ops ih =>
    exact ih (applyRecordOp cfg st op)
      (applyRecordOp_preserves cfg st u r h hfin op)

/-- A finalised record used by the C1 witness. -/
def finalRec : Record :=
  { filePath := "archive/example.com/a/index.html",
    contentType := "text/html", status := 200, isPage := true,
    predicted := false, originalUrl := "https://example.com/a" }

/-- A crawl state holding one finalised record. -/
def stFinal : CrawlState :=
  { initialState with records := [("https://example.com/a", finalRec)] }

theorem finalized_record_is_immutable_witness :
    mapGet (applyRecordOps cfgTest
      [RecordOp.predict "https://example.com/a" true "",
       RecordOp.finalize "https://example.com/a" "elsewhere.bin"
         "application/octet-stream" 500 false "",
       RecordOp.predict "https://other.org/b" false "https://example.com/a"]
      stFinal).records "https://example.com/a" = some finalRec :=
  finalized_record_is_immutable cfgTest stFinal "https://example.com/a"
    finalRec (by decide) (by decide) _

/-! ## C4: enqueueing the same canonical URL twice is idempotent -/

theorem urlToFilePath_isSome (cfg : Config) (root url ct : String)
    (ip : Bool) (fe : String) (uo : URLRec) (h : parseURL url = some uo) :
    ∃ p, urlToFilePath cfg root url ct ip fe = some p := by
  unfold urlToFilePath
  rw [h]
  exact ⟨_, rfl⟩

theorem predictedRecordFor_some (cfg : Config) (u : String) (g : Bool)
    (f : String) (uo : URLRec) (h : parseURL u = some uo) :
    ∃ r0, predictedRecordFor cfg u g f = some r0 ∧ r0.predicted = true := by
  simp only [predictedRecordFor, h]
  obtain ⟨p, hp⟩ := urlToFilePath_isSome cfg cfg.outDir u _ _ "" uo h
  rw [hp]
  exact ⟨_, rfl, rfl⟩

theorem countP_spliceInsert (q : List CrawlJob) (i : Nat) (j : CrawlJob)
    (p : CrawlJob → Bool) :
    (spliceInsert q i j).countP p =
      q.countP p + (if p j then 1 else 0) := by
  unfold spliceInsert
  rw [List.countP_append, List.countP_cons, ← Nat.add_assoc,
    ← List.countP_append, List.take_append_drop]

theorem mapSet_fresh_eq_append {α : Type} (m : List (String × α))
    (k : String) (v : α) (h : mapGet m k = none) :
    mapSet m k v = m ++ [(k, v)] := by
  unfold mapSet
  rw [(mapGet_eq_none_iff m k).mp h]
  simp

theorem countP_eq_zero_of_mapGet_none {α : Type} (m : List (String × α))
    (k : String) (h : mapGet m k = none) :
    m.countP (fun p => p.1 = k) = 0 := by
  rw [List.countP_eq_zero]
  intro a ha
  have := List.find?_eq_none.mp ((mapGet_eq_none_iff m k).mp h) a ha
  simpa using this

theorem enqueue_fresh_state (cfg : Config) (u : String) (d s : Int)
    (st : CrawlState) (hcanon : normalizeUrl u = u) (hu0 : u ≠ "")
    (hne : st.enqueued.contains u = false)
    (hnv : st.visited.contains u = false)
    (hscope : scopePermits cfg st u = true)
    (hrec : mapGet st.records u = none) (r0 : Record)
    (hr0 : predictedRecordFor cfg u true "" = some r0) :
    enqueue cfg u d s st =
      ({ enqueueInsert cfg u d s st with
          records := mapSet st.records u r0 }, false) := by
  have hpr : predictRecord cfg u true "" (enqueueInsert cfg u d s st) =
      .ok ({ enqueueInsert cfg u d s st with
        records := mapSet st.records u r0 }, some r0) := by
    unfold predictRecord predictRecordBody
    rw [hcanon, if_neg hu0,
      (show mapGet (enqueueInsert cfg u d s st).records u = none from hrec),
      hr0]
    rfl
  unfold enqueue
  rw [hcanon, hne, hnv]
  rw [if_neg (by simp [hu0]), if_neg (by simp [hscope]), hpr]

theorem enqueue_already_enqueued (cfg : Config) (u : String) (d s : Int)
    (st : CrawlState) (hcanon : normalizeUrl u = u)
    (hdup : st.enqueued.contains u = true) :
    enqueue cfg u d s st = (st, false) := by
  unfold enqueue
  rw [hcanon, hdup]
  rw [if_pos (by simp)]

/-- C4: enqueuing a valid, in-scope, not-yet-seen canonical URL twice
(with arbitrary depths and scores) yields exactly one job in the queue
and exactly one predicted record for that URL, and the second call
leaves the whole crawl state unchanged and raises nothing. -/
theorem enqueue_twice_idempotent (cfg : Config) (u : String)
    (d1 s1 d2 s2 : Int) (st : CrawlState)
    (hcanon : normalizeUrl u = u)
    (hparse : (parseURL u).isSome = true)
    (hne : st.enqueued.contains u = false)
    (hnv : st.visited.contains u = false)
    (hscope : scopePermits cfg st u = true)
    (hrec : mapGet st.records u = none)
    (hq : st.queue.countP (fun j => j.url = u) = 0) :
    (enqueue cfg u d2 s2 (enqueue cfg u d1 s1 st).1).1 =
      (enqueue cfg u d1 s1 st).1 ∧
    (enqueue cfg u d1 s1 st).2 = false ∧
    (enqueue cfg u d2 s2 (enqueue cfg u d1 s1 st).1).2 = false ∧
    (enqueue cfg u d1 s1 st).1.queue.countP (fun j => j.url = u) = 1 ∧
    (∃ r, mapGet (enqueue cfg u d1 s1 st).1.records u = some r ∧
      r.predicted = true) ∧
    (enqueue cfg u d1 s1 st).1.records.countP (fun p => p.1 = u) = 1 := by
  obtain ⟨uo, hp⟩ := Option.isSome_iff_exists.mp hparse
  have hu0 : u ≠ "" := by
    intro he
    rw [he] at hp
    exact Option.noConfusion ((show parseURL "" = none from rfl).symm.trans hp)
  obtain ⟨r0, hr0, hr0p⟩ := predictedRecordFor_some cfg u true "" uo hp
  have h1 := enqueue_fresh_state cfg u d1 s1 st hcanon hu0 hne hnv hscope hrec
    r0 hr0
  have h2 : (enqueue cfg u d1 s1 st).1.enqueued.contains u = true := by
    rw [h1]
    exact setAdd_contains st.enqueued u
  have hdup := enqueue_already_enqueued cfg u d2 s2 (enqueue cfg u d1 s1 st).1
    hcanon h2
  refine ⟨by rw [hdup], by rw [h1], by rw [hdup], ?_, ?_, ?_⟩
  · rw [h1]
    show (enqueueInsert cfg u d1 s1 st).queue.countP _ = 1
    simp only [enqueueInsert]
    rw [countP_spliceInsert, hq]
    simp [mkJob]
  · refine ⟨r0, ?_, hr0p⟩
    rw [h1]
    exact mapGet_mapSet_fresh st.records u r0 hrec
  · rw [h1]
    show (mapSet st.records u r0).countP _ = 1
    rw [mapSet_fresh_eq_append st.records u r0 hrec, List.countP_append,
      countP_eq_zero_of_mapGet_none st.records u hrec]
    simp

theorem enqueue_twice_idempotent_witness :
    (enqueue cfgTest "https://example.com/page" 3 9
      (enqueue cfgTest "https://example.com/page" 0 5 initialState).1).1 =
      (enqueue cfgTest "https://example.com/page" 0 5 initialState).1 ∧
    (enqueue cfgTest "https://example.com/page" 0 5 initialState).2 = false ∧
    (enqueue cfgTest "https://example.com/page" 3 9
      (enqueue cfgTest "https://example.com/page" 0 5 initialState).1).2 = false ∧
    (enqueue cfgTest "https://example.com/page" 0 5 initialState).1.queue.countP
      (fun j => j.url = "https://example.com/page") = 1 ∧
    (∃ r, mapGet (enqueue cfgTest "https://example.com/page" 0 5
        initialState).1.records "https://example.com/page" = some r ∧
      r.predicted = true) ∧
    (enqueue cfgTest "https://example.com/page" 0 5
      initialState).1.records.countP
        (fun p => p.1 = "https://example.com/page") = 1 :=
  enqueue_twice_idempotent cfgTest "https://example.com/page" 0 5 3 9
    initialState (by decide) (by decide) (by decide) (by decide) (by decide)
    (by decide) (by decide)

/-! ## C5: the three crawl-scope policies -/

theorem predictRecord_ok_shape (cfg : Config) (url : String) (g : Bool)
    (f : String) (st st2 : CrawlState) (ro : Option Record)
    (hok : predictRecord cfg url g f st = .ok (st2, ro)) :
    st2.queue = st.queue ∧ st2.enqueued = st.enqueued ∧
      st2.visited = st.visited := by
  unfold predictRecord predictRecordBody at hok
  split at hok
  · cases hok; exact ⟨rfl, rfl, rfl⟩
  · split at hok
    · split at hok
      · cases hok; exact ⟨rfl, rfl, rfl⟩
      · split at hok
        · cases hok
        · cases hok; exact ⟨rfl, rfl, rfl⟩
    · split at hok
      · cases hok
      · cases hok; exact ⟨rfl, rfl, rfl⟩

theorem length_spliceInsert (q : List CrawlJob) (i : Nat) (j : CrawlJob) :
    (spliceInsert q i j).length = q.length + 1 := by
  unfold spliceInsert
  simp
  omega

/-- The scope anchors seeded from the start URL
`https://a.example.com/x`. -/
def stSeed : CrawlState := seedScope ["https://a.example.com/x"] initialState

/-- C5: with the scope anchors seeded from `https://a.example.com/x`,
the `same-domain` policy rejects a link to `https://b.a.example.com/y`
(the state is unchanged), the `subdomains` policy accepts it (one job
is queued and the URL is marked enqueued), and under `cross-domains`
every well-formed link that is not already enqueued or visited is
accepted. -/
theorem crawl_scope_policies :
    enqueue (cfgScope "same-domain") "https://b.a.example.com/y" 1 5 stSeed =
      (stSeed, false) ∧
    ((enqueue (cfgScope "subdomains") "https://b.a.example.com/y" 1 5
        stSeed).1.enqueued.contains "https://b.a.example.com/y" = true ∧
     (enqueue (cfgScope "subdomains") "https://b.a.example.com/y" 1 5
        stSeed).1.queue.countP
          (fun j => j.url = "https://b.a.example.com/y") = 1) ∧
    (∀ (cfg : Config) (st : CrawlState) (url : String) (d s : Int),
      cfg.crawlScope = "cross-domains" →
      normalizeUrl url ≠ "" →
      st.enqueued.contains (normalizeUrl url) = false →
      st.visited.contains (normalizeUrl url) = false →
      (enqueue cfg url d s st).1.enqueued.contains (normalizeUrl url) = true ∧
      (enqueue cfg url d s st).1.queue.length = st.queue.length + 1) := by
  refine ⟨by decide, ⟨by decide, by decide⟩, ?_⟩
  intro cfg st url d s hscope hnn hne hnv
  unfold enqueue
  rw [hne, hnv]
  have hsp : scopePermits cfg st (normalizeUrl url) = true := by
    unfold scopePermits
    rw [hscope]
    simp
  rw [if_neg (by simp [hnn]), if_neg (by simp [hsp])]
  cases hpr : predictRecord cfg (normalizeUrl url) true ""
      (enqueueInsert cfg (normalizeUrl url) d s st) with
  | ok p =>
    obtain ⟨st2, ro⟩ := p
    obtain ⟨hq, he, _⟩ := predictRecord_ok_shape cfg (normalizeUrl url) true ""
      (enqueueInsert cfg (normalizeUrl url) d s st) st2 ro hpr
    show st2.enqueued.contains (normalizeUrl url) = true ∧
      st2.queue.length = st.queue.length + 1
    rw [he, hq]
    constructor
    · show (setAdd st.enqueued (normalizeUrl url)).contains _ = true
      exact setAdd_contains st.enqueued (normalizeUrl url)
    · show (spliceInsert st.queue _ _).length = st.queue.length + 1
      exact length_spliceInsert st.queue _ _
  | error e =>
    constructor
    · show (setAdd st.enqueued (normalizeUrl url)).contains _ = true
      exact setAdd_contains st.enqueued (normalizeUrl url)
    · show (spliceInsert st.queue _ _).length = st.queue.length + 1
      exact length_spliceInsert st.queue _ _

theorem crawl_scope_policies_witness :
    (enqueue cfgTest "https://wild.org/z" 1 5 stSeed).1.enqueued.contains
      (normalizeUrl "https://wild.org/z") = true ∧
    (enqueue cfgTest "https://wild.org/z" 1 5 stSeed).1.queue.length =
      stSeed.queue.length + 1 :=
  crawl_scope_policies.2.2 cfgTest stSeed "https://wild.org/z" 1 5
    (by decide) (by decide) (by decide) (by decide)

/-! ## C3 and C10: scheduler queue ordering

The queue invariant is the comparator order of `getInsertIndex`:
ascending score, and for equal scores descending depth, so the
highest-priority job sits at the tail where `pop()` takes it. -/

/-- The queue is sorted according to the `compare` comparator of
`getInsertIndex`. -/
def sortedQueue (q : List CrawlJob) : Prop :=
  q.Pairwise (fun a b => compareJobs a b ≤ 0)

theorem compareJobs_self (a : CrawlJob) : compareJobs a a = 0 := by
  unfold compareJobs
  simp

theorem compareJobs_neg (a b : CrawlJob) :
    compareJobs a b = -compareJobs b a := by
  unfold compareJobs
  split_ifs <;> omega

theorem compareJobs_ge_of_le (j x y : CrawlJob)
    (hxy : compareJobs x y ≤ 0) (hj : 0 ≤ compareJobs j y) :
    0 ≤ compareJobs j x := by
  unfold compareJobs at *
  split_ifs at * <;> omega

theorem compareJobs_lt_of_le (j x y : CrawlJob)
    (hxy : compareJobs x y ≤ 0) (hj : compareJobs j x < 0) :
    compareJobs j y < 0 := by
  unfold compareJobs at *
  split_ifs at * <;> omega

theorem sorted_getD_le (q : List CrawlJob) (hs : sortedQueue q)
    (d : CrawlJob) {i j : Nat} (hij : i ≤ j) (hj : j < q.length) :
    compareJobs (q.getD i d) (q.getD j d) ≤ 0 := by
  rcases Nat.lt_or_ge i j with hlt | hge
  · rw [List.getD_eq_getElem q d (Nat.lt_trans hlt hj),
      List.getD_eq_getElem q d hj]
    exact List.pairwise_iff_getElem.mp hs i j (Nat.lt_trans hlt hj) hj hlt
  · have : i = j := Nat.le_antisymm hij hge
    subst this
    rw [compareJobs_self]

theorem insertIdxGo_spec (job : CrawlJob) (q : List CrawlJob)
    (hs : sortedQueue q) :
    ∀ fuel low high, low ≤ high → high ≤ q.length → high - low < fuel →
    (∀ k, k < low → 0 ≤ compareJobs job (q.getD k job)) →
    (∀ k, high ≤ k → k < q.length → compareJobs job (q.getD k job) < 0) →
    insertIdxGo job q fuel low high ≤ q.length ∧
    (∀ k, k < insertIdxGo job q fuel low high →
      0 ≤ compareJobs job (q.getD k job)) ∧
    (∀ k, insertIdxGo job q fuel low high ≤ k → k < q.length →
      compareJobs job (q.getD k job) < 0) := by
  intro fuel
  induction fuel with
  | zero => intro low high h1 h2 h3 _ _; omega
  | succ fuel ih =>
    intro low high h1 h2 h3 hinv1 hinv2
    show insertIdxGo job q (fuel + 1) low high ≤ q.length ∧ _ ∧ _
    unfold insertIdxGo
    by_cases hlh : low < high
    · rw [if_pos hlh]
      by_cases hcmp : 0 ≤ compareJobs job (q.getD ((low + high) / 2) job)
      · rw [if_pos hcmp]
        refine ih ((low + high) / 2 + 1) high (by omega) h2 (by omega) ?_ hinv2
        intro k hk
        rcases Nat.lt_or_ge k low with hkl | hkl
        · exact hinv1 k hkl
        · exact compareJobs_ge_of_le job (q.getD k job)
            (q.getD ((low + high) / 2) job)
            (sorted_getD_le q hs job (by omega) (by omega)) hcmp
      · rw [if_neg hcmp]
        refine ih low ((low + high) / 2) (by omega) (by omega) (by omega)
          hinv1 ?_
        intro k hk hklen
        rcases Nat.lt_or_ge k high with hkh | hkh
        · exact compareJobs_lt_of_le job (q.getD ((low + high) / 2) job)
            (q.getD k job) (sorted_getD_le q hs job hk hklen) (by omega)
        · exact hinv2 k hkh hklen
    · rw [if_neg hlh]
      have : low = high := by omega
      refine ⟨by omega, hinv1, ?_⟩
      intro k hk hklen
      exact hinv2 k (by omega) hklen

theorem getInsertIndex_spec (job : CrawlJob) (q : List CrawlJob)
    (hs : sortedQueue q) :
    getInsertIndex job q ≤ q.length ∧
    (∀ k, k < getInsertIndex job q → 0 ≤ compareJobs job (q.getD k job)) ∧
    (∀ k, getInsertIndex job q ≤ k → k < q.length →
      compareJobs job (q.getD k job) < 0) := by
  unfold getInsertIndex
  exact insertIdxGo_spec job q hs (q.length + 1) 0 q.length (Nat.zero_le _)
    (le_refl _) (by omega) (by omega) (by omega)

theorem mem_take_getD (q : List CrawlJob) (i : Nat) (a d : CrawlJob)
    (h : a ∈ q.take i) :
    ∃ k, k < i ∧ k < q.length ∧ q.getD k d = a := by
  rcases List.mem_iff_getElem.mp h with ⟨m, hm, hma⟩
  have hmlen : m < q.length := by
    have := hm
    rw [List.length_take] at this
    omega
  have hmi : m < i := by
    have := hm
    rw [List.length_take] at this
    omega
  refine ⟨m, hmi, hmlen, ?_⟩
  rw [List.getD_eq_getElem q d hmlen, ← hma, List.getElem_take]

theorem mem_drop_getD (q : List CrawlJob) (i : Nat) (a d : CrawlJob)
    (h : a ∈ q.drop i) :
    ∃ k, i ≤ k ∧ k < q.length ∧ q.getD k d = a := by
  rcases List.mem_iff_getElem.mp h with ⟨m, hm, hma⟩
  have hmlen : i + m < q.length := by
    have := hm
    rw [List.length_drop] at this
    omega
  refine ⟨i + m, by omega, hmlen, ?_⟩
  rw [List.getD_eq_getElem q d hmlen, ← hma, List.getElem_drop]

theorem insertJob_sorted (job : CrawlJob) (q : List CrawlJob)
    (hs : sortedQueue q) : sortedQueue (insertJob job q) := by
  obtain ⟨hlen, hinv1, hinv2⟩ := getInsertIndex_spec job q hs
  unfold insertJob spliceInsert sortedQueue
  rw [List.pairwise_append]
  refine ⟨List.Pairwise.sublist (List.take_sublist _ _) hs, ?_, ?_⟩
  · rw [List.pairwise_cons]
    refine ⟨?_, List.Pairwise.sublist (List.drop_sublist _ _) hs⟩
    intro b hb
    obtain ⟨k, hk1, hk2, hk3⟩ := mem_drop_getD q (getInsertIndex job q) b job hb
    have := hinv2 k hk1 hk2
    rw [hk3] at this
    omega
  · intro a ha b hb
    obtain ⟨ka, hka1, hka2, hka3⟩ :=
      mem_take_getD q (getInsertIndex job q) a job ha
    rcases List.mem_cons.mp hb with rfl | hb2
    · have := hinv1 ka hka1
      rw [hka3] at this
      rw [compareJobs_neg]
      omega
    · obtain ⟨kb, hkb1, hkb2, hkb3⟩ :=
        mem_drop_getD q (getInsertIndex job q) b job hb2
      rw [← hka3, ← hkb3]
      exact sorted_getD_le q hs job (by omega) hkb2

theorem foldl_insertJob_sorted (jobs : List CrawlJob) :
    sortedQueue (jobs.foldl (fun q j => insertJob j q) []) := by
  have general : ∀ (q : List CrawlJob), sortedQueue q →
      sortedQueue (jobs.foldl (fun q j => insertJob j q) q) := by
    induction jobs with
    | nil => intro q hq; exact hq
    | cons j jobs ih =>
      intro q hq
      exact ih (insertJob j q) (insertJob_sorted j q hq)
  exact general [] (List.Pairwise.nil)

theorem popSeqFuel_eq_reverse :
    ∀ fuel (q : List CrawlJob), q.length ≤ fuel →
      popSeqFuel fuel q = q.reverse := by
  intro fuel
  induction fuel with
  | zero =>
    intro q h
    have : q = [] := List.eq_nil_of_length_eq_zero (Nat.le_zero.mp h)
    subst this
    rfl
  | succ fuel ih =>
    intro q h
    rcases List.eq_nil_or_concat q with rfl | ⟨l, a, rfl⟩
    · rfl
    · rw [List.concat_eq_append] at h ⊢
      unfold popSeqFuel queuePop
      rw [List.getLast?_concat, List.dropLast_concat]
      show a :: popSeqFuel fuel l = (l ++ [a]).reverse
      rw [ih l (by
        rw [List.length_append] at h
        simp at h
        omega)]
      rw [List.reverse_append]
      rfl

theorem popSeq_eq_reverse (q : List CrawlJob) : popSeq q = q.reverse :=
  popSeqFuel_eq_reverse q.length q (le_refl _)

theorem getD_reverse_eq (l : List CrawlJob) (d : CrawlJob) (i : Nat)
    (h : i < l.length) :
    l.reverse.getD i d = l.getD (l.length - 1 - i) d := by
  rw [List.getD_eq_getElem l.reverse d (by rw [List.length_reverse]; exact h),
    List.getElem_reverse, List.getD_eq_getElem l d (by omega)]

/-- C3: inserting any set of jobs into an initially empty queue through
the ordered insertion (`getInsertIndex` + splice), with no retry
re-pushes, makes repeated `pop()` calls from the tail return the jobs
in non-increasing score order, and among jobs of equal score in
non-decreasing depth order. -/
theorem queue_pop_order_correct (jobs : List CrawlJob) :
    (popSeq (jobs.foldl (fun q j => insertJob j q) [])).Pairwise
      (fun a b => b.score ≤ a.score ∧
        (a.score = b.score → a.depth ≤ b.depth)) := by
  rw [popSeq_eq_reverse, List.pairwise_reverse]
  refine (foldl_insertJob_sorted jobs).imp ?_
  intro a b h
  unfold compareJobs at h
  split_ifs at h with hsc
  · exact ⟨by omega, fun hba => by omega⟩
  · exact ⟨by omega, fun _ => by omega⟩

/-- C10: among jobs that compare equal (same score and depth), the
binary-search insertion places a new job after every existing equal
job, so the newest tie is popped first: after inserting `j` into a
sorted queue that holds an equal-comparing job at position `k`, the
pop sequence yields `j` strictly before that older job. -/
theorem equal_ties_pop_lifo (q : List CrawlJob) (j dflt : CrawlJob)
    (k : Nat) (hs : sortedQueue q) (hk : k < q.length)
    (heq : compareJobs j (q.getD k dflt) = 0) :
    ∃ i1 i2, i1 < i2 ∧ i2 < (popSeq (insertJob j q)).length ∧
      (popSeq (insertJob j q)).getD i1 dflt = j ∧
      (popSeq (insertJob j q)).getD i2 dflt = q.getD k dflt := by
  obtain ⟨hlen, hinv1, hinv2⟩ := getInsertIndex_spec j q hs
  have hgd : q.getD k dflt = q.getD k j := by
    rw [List.getD_eq_getElem q dflt hk, List.getD_eq_getElem q j hk]
  have hki : k < getInsertIndex j q := by
    by_contra hkge
    have := hinv2 k (by omega) hk
    rw [← hgd, heq] at this
    omega
  have hlen' : (insertJob j q).length = q.length + 1 := by
    unfold insertJob
    exact length_spliceInsert q (getInsertIndex j q) j
  have hidx : (insertJob j q).getD (getInsertIndex j q) dflt = j := by
    unfold insertJob spliceInsert
    rw [List.getD_eq_getElem _ dflt (by
      rw [show (q.take (getInsertIndex j q) ++ j ::
        q.drop (getInsertIndex j q)).length = q.length + 1 from
        length_spliceInsert q (getInsertIndex j q) j]
      omega)]
    rw [List.getElem_append_right (by
      rw [List.length_take]
      omega)]
    simp [List.length_take, Nat.min_eq_left hlen]
  have hold : (insertJob j q).getD k dflt = q.getD k dflt := by
    unfold insertJob spliceInsert
    rw [List.getD_eq_getElem _ dflt (by
      rw [show (q.take (getInsertIndex j q) ++ j ::
        q.drop (getInsertIndex j q)).length = q.length + 1 from
        length_spliceInsert q (getInsertIndex j q) j]
      omega)]
    rw [List.getElem_append_left (by
      rw [List.length_take]
      exact Nat.lt_min.mpr ⟨hki, hk⟩)]
    rw [List.getElem_take, List.getD_eq_getElem q dflt hk]
  refine ⟨q.length - getInsertIndex j q, q.length - k, by omega, ?_, ?_, ?_⟩
  · rw [popSeq_eq_reverse, List.length_reverse, hlen']
    omega
  · rw [popSeq_eq_reverse,
      getD_reverse_eq (insertJob j q) dflt _ (by rw [hlen']; omega)]
    rw [show (insertJob j q).length - 1 - (q.length - getInsertIndex j q) =
      getInsertIndex j q from by rw [hlen']; omega]
    exact hidx
  · rw [popSeq_eq_reverse,
      getD_reverse_eq (insertJob j q) dflt _ (by rw [hlen']; omega)]
    rw [show (insertJob j q).length - 1 - (q.length - k) = k from by
      rw [hlen']; omega]
    exact hold

/-- Jobs used by the C10 witness: equal score and depth, distinct
URLs. -/
def tieJobA : CrawlJob :=
  { url := "https://example.com/a", depth := 1, retries := 0,
    crawlId := "aaaaaaaa", score := 5 }

/-- Second tie job for the C10 witness. -/
def tieJobB : CrawlJob :=
  { url := "https://example.com/b", depth := 1, retries := 0,
    crawlId := "bbbbbbbb", score := 5 }

theorem equal_ties_pop_lifo_witness :
    ∃ i1 i2, i1 < i2 ∧ i2 < (popSeq (insertJob tieJobB [tieJobA])).length ∧
      (popSeq (insertJob tieJobB [tieJobA])).getD i1 tieJobA = tieJobB ∧
      (popSeq (insertJob tieJobB [tieJobA])).getD i2 tieJobA =
        [tieJobA].getD 0 tieJobA :=
  equal_ties_pop_lifo [tieJobA] tieJobB tieJobA 0
    (List.pairwise_singleton _ _) (by decide) (by decide)

/-! ## C6: the relativizer emits `./`- or `../`-prefixed paths -/

theorem isPrefixOf_append_self {l m : List Char} :
    l.isPrefixOf (l ++ m) = true := by
  induction l with
  | nil => simp [List.isPrefixOf]
  | cons c l ih =>
    show (c == c && l.isPrefixOf (l ++ m)) = true
    simp [ih]

theorem jsStartsWith_append (p s : String) : jsStartsWith (p ++ s) p = true := by
  unfold jsStartsWith
  rw [String.data_append]
  exact isPrefixOf_append_self

theorem prefixed_fix (rel : String) :
    (jsStartsWith
      (if !jsStartsWith rel "./" && !jsStartsWith rel "../" then "./" ++ rel
       else rel) "./" = true) ∨
    (jsStartsWith
      (if !jsStartsWith rel "./" && !jsStartsWith rel "../" then "./" ++ rel
       else rel) "../" = true) := by
  by_cases h1 : jsStartsWith rel "./" = true
  · rw [if_neg (by simp [h1])]
    exact Or.inl h1
  · by_cases h2 : jsStartsWith rel "../" = true
    · rw [if_neg (by simp [h2])]
      exact Or.inr h2
    · rw [if_pos (by simp [h1, h2])]
      exact Or.inl (jsStartsWith_append "./" rel)

theorem relativizeVideo_prefixed (cwd sourcePath videoPath : String) :
    jsStartsWith (relativizeVideo cwd sourcePath videoPath) "./" = true ∨
    jsStartsWith (relativizeVideo cwd sourcePath videoPath) "../" = true := by
  unfold relativizeVideo
  exact prefixed_fix _

theorem relativizeRecord_prefixed (cwd sourcePath : String) (record : Record)
    (targetUrl : String) (hfp : record.filePath ≠ "") :
    jsStartsWith (relativizeRecord cwd sourcePath record targetUrl) "./" = true ∨
    jsStartsWith (relativizeRecord cwd sourcePath record targetUrl) "../" = true := by
  unfold relativizeRecord
  rw [if_neg hfp]
  by_cases hre : pathRelative cwd (pathDirname (pathResolve cwd sourcePath))
      (pathResolve cwd record.filePath) = ""
  · rw [if_pos hre]
    exact Or.inl (by decide)
  · rw [if_neg hre]
    exact prefixed_fix _

/-- The asset record used by the C6 concrete scenarios. -/
def styleRec : Record :=
  { filePath := "archive/example.com/css/style.css",
    contentType := "text/css", status := 200, isPage := false,
    predicted := true, originalUrl := "https://example.com/css/style.css" }

/-- A crawl state holding the C6 asset record. -/
def relState : CrawlState :=
  { initialState with records := [("https://example.com/css/style.css", styleRec)] }

/-- C6: from a page at `archive/example.com/index.html` the asset at
`archive/example.com/css/style.css` is rewritten to `./css/style.css`;
from `archive/example.com/blog/post/index.html` it is rewritten to
`../../css/style.css`; and in general the relativizer's output for a
URL with a known video path or a known record with a non-empty file
path is prefixed with `./` or `../`. -/
theorem relativizer_emits_relative_paths :
    relativize "/work" relState "archive/example.com/index.html"
      "https://example.com/css/style.css" = "./css/style.css" ∧
    relativize "/work" relState "archive/example.com/blog/post/index.html"
      "https://example.com/css/style.css" = "../../css/style.css" ∧
    (∀ (cwd : String) (st : CrawlState) (sourcePath targetUrl : String),
      jsStartsWith targetUrl "data:" = false →
      normalizeUrl targetUrl ≠ "" →
      ((mapGet st.videoUrlMap (normalizeUrl targetUrl)).isSome = true ∨
        (∃ record, mapGet st.records (normalizeUrl targetUrl) = some record ∧
          record.filePath ≠ "")) →
      jsStartsWith (relativize cwd st sourcePath targetUrl) "./" = true ∨
      jsStartsWith (relativize cwd st sourcePath targetUrl) "../" = true) := by
  refine ⟨by decide, by decide, ?_⟩
  intro cwd st sourcePath targetUrl hdata hnn hknown
  unfold relativize
  rw [if_neg (by simp [hdata]), if_neg hnn]
  cases hv : mapGet st.videoUrlMap (normalizeUrl targetUrl) with
  | some vp => exact relativizeVideo_prefixed cwd sourcePath vp
  | none =>
    cases hr : mapGet st.records (normalizeUrl targetUrl) with
    | none =>
      rcases hknown with hk | ⟨record, hr2, _⟩
      · rw [hv] at hk
        exact absurd hk (by simp)
      · rw [hr] at hr2
        cases hr2
    | some record =>
      rcases hknown with hk | ⟨record2, hr2, hfp⟩
      · rw [hv] at hk
        exact absurd hk (by simp)
      · rw [hr] at hr2
        cases hr2
        exact relativizeRecord_prefixed cwd sourcePath record targetUrl hfp

theorem relativizer_emits_relative_paths_witness :
    jsStartsWith (relativize "/work" relState "archive/example.com/index.html"
      "https://example.com/css/style.css") "./" = true ∨
    jsStartsWith (relativize "/work" relState "archive/example.com/index.html"
      "https://example.com/css/style.css") "../" = true :=
  relativizer_emits_relative_paths.2.2 "/work" relState
    "archive/example.com/index.html" "https://example.com/css/style.css"
    (by decide) (by decide)
    (Or.inr ⟨styleRec, by decide, by decide⟩)

theorem safeAttrUrl_quotes_encoded_amended_witness :
    ('"' ∉ (safeAttrUrl "https://e.com/a\"b c").data ∧
      '\x27' ∉ (safeAttrUrl "https://e.com/a\"b c").data) ∧
    safeAttrUrl "https://e.com/a%20b" = "https://e.com/a%2520b" :=
  safeAttrUrl_quotes_encoded_amended "https://e.com/a\"b c" (by decide)
    (by decide)

end Webclone
